import Mathlib

/-!
# Verification of the `twitter-transaction-id` client library

Shallow embedding of the token-derivation pipeline implemented in
`src/transaction.ts`, `src/cubic.ts`, `src/utils.ts`, `src/interpolate.ts`.

Modelling conventions:
* JavaScript numbers are modelled as exact rationals (`ℚ`); byte values as `ℕ`.
* `Math.floor` is `Int.floor`, `Math.round` is `jsRound` (half toward `+∞`).
* Code that signals failure by throwing is embedded in `Except`.
* External primitives (`crypto.subtle.digest` composed with UTF-8 encoding,
  `Math.random`, `Date.now`) are explicit parameters of the embedding.
-/

/-- JavaScript `Math.round`: rounds to the nearest integer, ties toward `+∞`,
i.e. `⌊x + 1/2⌋`. -/
def jsRound (x : ℚ) : ℤ := ⌊x + 1/2⌋

/-- `solve` from `src/transaction.ts` (the spec's `scaleByte`):
`result = value * (maxVal - minVal) / 255 + minVal`, then `Math.floor(result)`
when `rounding` is set, else `Math.round(result * 100) / 100`. -/
def solve (value minVal maxVal : ℚ) (rounding : Bool) : ℚ :=
  let result := value * (maxVal - minVal) / 255 + minVal
  if rounding then (⌊result⌋ : ℚ) else (jsRound (result * 100) : ℚ) / 100

/-- `isOdd` from `src/utils.ts`: returns `-1.0` if the argument is odd and
`0.0` if it is even (`if (num % 2) return -1.0; return 0.0`). -/
def isOdd (num : ℕ) : ℚ := if num % 2 ≠ 0 then -1 else 0

/-- Truncation toward zero of a rational (the rounding mode named by the
C5 claim text; the source itself uses `Math.floor`). -/
def truncTowardZero (x : ℚ) : ℤ := if 0 ≤ x then ⌊x⌋ else ⌈x⌉

/-- The indexed map
`remainingFrames.map((item, counter) => solve(item, isOdd(counter), 1.0, false))`
from `animate` in `src/transaction.ts`, with `counter` made explicit. -/
def curvesAux (counter : ℕ) : List ℚ → List ℚ
  | [] => []
  | item :: rest => solve item (isOdd counter) 1 false :: curvesAux (counter + 1) rest

/-- The curve-control list of `animate` in `src/transaction.ts`:
`frames.slice(7)` mapped through `solve` with the `isOdd` lower bound. -/
def curvesOf (frames : List ℚ) : List ℚ := curvesAux 0 (frames.drop 7)

theorem curvesAux_getD (l : List ℚ) (k i : ℕ) (h : i < l.length) :
    (curvesAux k l).getD i 0 = solve (l.getD i 0) (isOdd (k + i)) 1 false := by
  induction l generalizing k i with
  | nil => simp at h
  | cons x xs ih =>
    cases i with
    | zero => simp [curvesAux]
    | succ j =>
      have hj : j < xs.length := by simpa using h
      simpa [curvesAux, Nat.add_assoc, Nat.add_comm 1 j] using ih (k + 1) j hj

/-- **C5 counterexample.** The claim says `scaleByte(v, min, max, floor=true)`
truncates toward zero; the source uses `Math.floor`, which differs on negative
results: at `v = 0, min = -1/2, max = 1` the code yields `-1`, truncation
toward zero yields `0`. -/
theorem solve_floor_not_trunc_toward_zero :
    solve 0 (-1/2) 1 true ≠
      (truncTowardZero ((0 : ℚ) * (1 - (-1/2)) / 255 + (-1/2)) : ℚ) := by
  have hc : (⌈(-(1/2) : ℚ)⌉ : ℤ) = 0 := by
    rw [Int.ceil_eq_iff] <;> norm_num
  norm_num [solve, truncTowardZero, hc]

/-- **C5 (amended).** For every 8-bit value `v` and rationals `min`, `max`:
`scaleByte(v, min, max, floor=true)` is the *floor* (round toward `-∞`) of
`v*(max-min)/255 + min`, and `scaleByte(v, min, max, floor=false)` is that
quantity rounded to 2 decimal places with ties toward `+∞`
(`⌊100·q + 1/2⌋ / 100`). -/
theorem solve_spec (v : ℕ) (hv : v ≤ 255) (minVal maxVal : ℚ) :
    solve (v : ℚ) minVal maxVal true
        = (⌊(v : ℚ) * (maxVal - minVal) / 255 + minVal⌋ : ℚ) ∧
      solve (v : ℚ) minVal maxVal false
        = (⌊((v : ℚ) * (maxVal - minVal) / 255 + minVal) * 100 + 1/2⌋ : ℚ) / 100 := by
  exact ⟨by simp [solve], by simp [solve, jsRound]⟩

/-- Witness for `solve_spec` at `v = 128`, `min = 0`, `max = 1`. -/
theorem solve_spec_witness :
    (128 : ℕ) ≤ 255 ∧
      (solve ((128 : ℕ) : ℚ) 0 1 true
          = (⌊((128 : ℕ) : ℚ) * (1 - 0) / 255 + 0⌋ : ℚ) ∧
        solve ((128 : ℕ) : ℚ) 0 1 false
          = (⌊(((128 : ℕ) : ℚ) * (1 - 0) / 255 + 0) * 100 + 1/2⌋ : ℚ) / 100) :=
  ⟨by norm_num, solve_spec 128 (by norm_num) 0 1⟩

/-- **C2 counterexample.** The claim says the lower bound passed to `solve`
is `-1` at even slice positions. At position `0` (even) of the frame row
`[0,0,0,0,0,0,0,0]` the code computes `solve 0 (isOdd 0) 1 false = 0`,
whereas the claimed transform `solve 0 (-1) 1 false = -1`. -/
theorem curves_lower_bound_not_neg_one_at_even :
    ¬ ((curvesOf [0, 0, 0, 0, 0, 0, 0, 0]).getD 0 0
        = solve ((([0, 0, 0, 0, 0, 0, 0, 0] : List ℚ).drop 7).getD 0 0) (-1) 1 false) := by
  norm_num [curvesOf, curvesAux, isOdd, solve, jsRound]

/-- **C2 (amended).** In animation-key synthesis, the curve-control value at
0-based position `i` of `frameRow[7:]` is `solve(value, lower, 1, floor=false)`
where the lower bound is `0` when `i` is even and `-1` when `i` is odd
(`isOdd` returns `-1.0` for odd counters and `0.0` for even ones). -/
theorem curves_lower_bound_alternation (frames : List ℚ) (i : ℕ)
    (h : i < (frames.drop 7).length) :
    (curvesOf frames).getD i 0
      = solve ((frames.drop 7).getD i 0) (if i % 2 = 1 then -1 else 0) 1 false := by
  rw [curvesOf, curvesAux_getD _ 0 i h]
  rcases Nat.mod_two_eq_zero_or_one i with hp | hp <;> simp [isOdd, hp]

/-- Witness for `curves_lower_bound_alternation` on the frame row
`[0,0,0,0,0,0,0,1]` at slice position `0`. -/
theorem curves_lower_bound_alternation_witness :
    0 < (([0, 0, 0, 0, 0, 0, 0, 1] : List ℚ).drop 7).length ∧
      (curvesOf [0, 0, 0, 0, 0, 0, 0, 1]).getD 0 0
        = solve ((([0, 0, 0, 0, 0, 0, 0, 1] : List ℚ).drop 7).getD 0 0)
            (if 0 % 2 = 1 then -1 else 0) 1 false :=
  ⟨by simp, curves_lower_bound_alternation [0, 0, 0, 0, 0, 0, 0, 1] 0 (by simp)⟩

namespace Cubic

/-- `Cubic.calculate` from `src/cubic.ts`: the endpoint-anchored bezier basis
`3a(1-m)²m + 3b(1-m)m² + m³`. -/
def calculate (a b m : ℚ) : ℚ :=
  3 * a * (1 - m) * (1 - m) * m + 3 * b * (1 - m) * m * m + m * m * m

/-- The `startGradient` computed by `Cubic.getValue` in its `time <= 0` branch:
`curves[1]/curves[0]` if `curves[0] > 0`, else `curves[3]/curves[2]` if
`curves[1] === 0 && curves[2] > 0`, else `0`. -/
def startGradient (c : List ℚ) : ℚ :=
  if 0 < c.getD 0 0 then c.getD 1 0 / c.getD 0 0
  else if c.getD 1 0 = 0 ∧ 0 < c.getD 2 0 then c.getD 3 0 / c.getD 2 0
  else 0

/-- The `endGradient` computed by `Cubic.getValue` in its `time >= 1` branch. -/
def endGradient (c : List ℚ) : ℚ :=
  if c.getD 2 0 < 1 then (c.getD 3 0 - 1) / (c.getD 2 0 - 1)
  else if c.getD 2 0 = 1 ∧ c.getD 0 0 < 1 then (c.getD 1 0 - 1) / (c.getD 0 0 - 1)
  else 0

/-- The `while (start < end)` binary-search loop of `Cubic.getValue`,
indexed by fuel so the embedding is total: each step computes
`mid = (start+end)/2`, returns the y-component when the x-estimate is within
`1e-5` of `time`, and otherwise halves the interval.  Fuel exhaustion returns
the y-component at the last midpoint (the source loop's only exit besides the
tolerance return is `start < end` turning false, which likewise returns the
y-component at the midpoint). -/
def bisect (c0 c1 c2 c3 t : ℚ) : ℕ → ℚ → ℚ → ℚ → ℚ
  | 0, _, _, mid => calculate c1 c3 mid
  | n + 1, s, e, mid =>
    if s < e then
      let m := (s + e) / 2
      let xEst := calculate c0 c2 m
      if |t - xEst| < 1/100000 then calculate c1 c3 m
      else if xEst < t then bisect c0 c1 c2 c3 t n m e m
      else bisect c0 c1 c2 c3 t n s m m
    else calculate c1 c3 mid

/-- `Cubic.getValue` from `src/cubic.ts` (the spec's
`CubicBezierSolver.evaluate`), fuel-indexed for the interior binary search.
`curves` accesses out of range are read as `0` via `getD`; every claim below
supplies exactly four control values. -/
def getValue (fuel : ℕ) (curves : List ℚ) (time : ℚ) : ℚ :=
  if time ≤ 0 then startGradient curves * time
  else if 1 ≤ time then 1 + endGradient curves * (time - 1)
  else bisect (curves.getD 0 0) (curves.getD 1 0) (curves.getD 2 0) (curves.getD 3 0)
      time fuel 0 1 0

end Cubic

/-- The start gradient as worded by the C3 claim (and spec §4.1), stated for
comparison with `Cubic.startGradient`: `c1/c0` if `c0 > 0`; else `c3/c2` if
`c0 == 0 and c2 > 0`; else `0`. -/
def claimedStartGradient (c0 c1 c2 c3 : ℚ) : ℚ :=
  if 0 < c0 then c1 / c0 else if c0 = 0 ∧ 0 < c2 then c3 / c2 else 0

/-- **C3 counterexample.** For the control set `[0, 2, 1, 5]` at `t = -1`,
the code takes the second guard only when `curves[1] === 0` (here `2 ≠ 0`), so
it returns `0 * t = 0`; the claim's gradient (`c0 == 0 and c2 > 0` gives
`c3/c2 = 5`) would return `-5`. -/
theorem getValue_neg_not_claimed_gradient :
    Cubic.getValue 0 [0, 2, 1, 5] (-1) ≠ claimedStartGradient 0 2 1 5 * (-1) := by
  norm_num [Cubic.getValue, Cubic.startGradient, claimedStartGradient, List.getD]

/-- **C3 (amended).** For every control set `[c0,c1,c2,c3]` and every
`t ≤ 0`, `evaluate(t)` returns `gradient * t` where `gradient = c1/c0` if
`c0 > 0`; else `c3/c2` if `c1 == 0` and `c2 > 0`; else `0`. -/
theorem getValue_nonpos (fuel : ℕ) (c0 c1 c2 c3 t : ℚ) (ht : t ≤ 0) :
    Cubic.getValue fuel [c0, c1, c2, c3] t
      = (if 0 < c0 then c1 / c0 else if c1 = 0 ∧ 0 < c2 then c3 / c2 else 0) * t := by
  simp [Cubic.getValue, Cubic.startGradient, if_pos ht, List.getD]

/-- Witness for `getValue_nonpos` at control set `[1,2,3,4]`, `t = -1`. -/
theorem getValue_nonpos_witness :
    (-1 : ℚ) ≤ 0 ∧
      Cubic.getValue 0 [1, 2, 3, 4] (-1)
        = (if (0 : ℚ) < 1 then 2 / 1 else if (2 : ℚ) = 0 ∧ (0 : ℚ) < 3 then 4 / 3 else 0)
            * (-1) :=
  ⟨by norm_num, getValue_nonpos 0 1 2 3 4 (-1) (by norm_num)⟩

/-- **C7.** For every 4-element control set, `evaluate(0) = 0` (the `t ≤ 0`
branch multiplies the start gradient by `0`) and `evaluate(1) = 1` (the
`t ≥ 1` branch adds `endGradient * (1 - 1)` to `1`). -/
theorem getValue_endpoints (fuel : ℕ) (c0 c1 c2 c3 : ℚ) :
    Cubic.getValue fuel [c0, c1, c2, c3] 0 = 0 ∧
      Cubic.getValue fuel [c0, c1, c2, c3] 1 = 1 := by
  constructor <;> norm_num [Cubic.getValue]

/-- Error raised by `interpolate` in `src/interpolate.ts` when the two input
sequences differ in length (the spec's LengthMismatch condition). -/
inductive InterpError where
  | lengthMismatch
deriving DecidableEq

/-- `interpolateNum` from `src/interpolate.ts`, numeric branch:
`fromVal * (1 - f) + toVal * f`. -/
def interpolateNum (fromVal toVal f : ℚ) : ℚ := fromVal * (1 - f) + toVal * f

/-- `interpolate` from `src/interpolate.ts`: throws on a length mismatch,
otherwise pushes `interpolateNum(fromList[i], toList[i], f)` for each index
`i` of `fromList` (the index loop is rendered as a map over `range`). -/
def interpolate (fromList toList : List ℚ) (f : ℚ) : Except InterpError (List ℚ) :=
  if fromList.length ≠ toList.length then .error .lengthMismatch
  else .ok ((List.range fromList.length).map fun i =>
    interpolateNum (fromList.getD i 0) (toList.getD i 0) f)

theorem interpolate_loop_eq_zipWith (l1 l2 : List ℚ) (f : ℚ) (h : l1.length = l2.length) :
    ((List.range l1.length).map fun i => interpolateNum (l1.getD i 0) (l2.getD i 0) f)
      = List.zipWith (fun a b => a * (1 - f) + b * f) l1 l2 := by
  induction l1 generalizing l2 with
  | nil => simp
  | cons a as ih =>
    cases l2 with
    | nil => simp at h
    | cons b bs =>
      have h' : as.length = bs.length := by simpa using h
      rw [List.length_cons, List.range_succ_eq_map, List.map_cons, List.map_map,
        List.zipWith_cons_cons, ← ih bs h']
      simp [Function.comp_def, interpolateNum]

theorem zipWith_blend_self (A : List ℚ) (f : ℚ) :
    List.zipWith (fun a b => a * (1 - f) + b * f) A A = A := by
  induction A with
  | nil => rfl
  | cons a as ih =>
    simp only [List.zipWith_cons_cons, ih]
    congr 1
    ring

/-- **C9.** `interpolate(from, to, f)` fails with LengthMismatch exactly when
the sequences differ in length, and otherwise returns the element-wise blend
`from[i]*(1-f) + to[i]*f`; in particular `interpolate(A, A, f) = A`. -/
theorem interpolate_spec (fromList toList A : List ℚ) (f : ℚ) :
    (interpolate fromList toList f
        = if fromList.length = toList.length
            then Except.ok (List.zipWith (fun a b => a * (1 - f) + b * f) fromList toList)
            else Except.error InterpError.lengthMismatch) ∧
      interpolate A A f = Except.ok A := by
  constructor
  · by_cases h : fromList.length = toList.length
    · have hz := interpolate_loop_eq_zipWith fromList toList f h
      simp only [interpolate]
      rw [if_neg (fun hn => hn h), hz, if_pos h]
    · simp only [interpolate]
      rw [if_pos h, if_neg h]
  · have hz := interpolate_loop_eq_zipWith A A f rfl
    simp only [interpolate]
    rw [if_neg (fun hn => hn rfl), hz, zipWith_blend_self]

/-- A selected animation-frame element, with the DOM navigation
`frame.children[0].children[1].getAttribute("d")` of `get2dArray` collapsed
into the optional path attribute it reads (`none` models a `null` attribute;
the model assumes the two fixed child elements exist, as the source does). -/
structure FrameElement where
  dAttr : Option String

/-- Frame-extraction failures named by the spec (§7): the source itself never
raises NoFrames; `getAnimationKey` raises `Invalid frame data`. -/
inductive FrameErr where
  | noFrames
  | invalidFrameData
deriving DecidableEq

/-- One segment of the path attribute, parsed as in `get2dArray`: every
maximal run of non-digit characters acts as a separator and every maximal
digit run is parsed as a base-10 integer (the source does this with
`replace(/[^\d]+/g, " ").trim().split(/\s+/).map(parseInt)`).  The second
argument carries the digit run being accumulated. -/
def parseRunsAux : List Char → Option ℕ → List ℕ
  | [], none => []
  | [], some n => [n]
  | c :: rest, none =>
    if c.isDigit then parseRunsAux rest (some (c.toNat - 48)) else parseRunsAux rest none
  | c :: rest, some n =>
    if c.isDigit then parseRunsAux rest (some (n * 10 + (c.toNat - 48)))
    else n :: parseRunsAux rest none

/-- Parse one `C`-separated segment of the path data into its integers. -/
def parseRuns (s : List Char) : List ℕ := parseRunsAux s none

/-- `get2dArray` from `src/transaction.ts`, lifted into `Except` so that the
failure behaviour claimed by the spec is statable; the source function returns
on every path, so every branch is `Except.ok`.  With no frames it returns the
sentinel `[[]]`; otherwise it selects `frames[keyBytes[5] % 4]`, returns `[]`
if the selected frame's path attribute is `null`, and otherwise drops the
first 9 characters and splits the remainder on `'C'`, parsing each segment. -/
def get2dArrayE (keyBytes : List ℕ) (frames : List FrameElement) :
    Except FrameErr (List (List ℕ)) :=
  if frames.length = 0 then .ok [[]]
  else
    match (frames.getD (keyBytes.getD 5 0 % 4) ⟨none⟩).dAttr with
    | none => .ok []
    | some d => .ok (((d.toList.drop 9).splitOn 'C').map parseRuns)

/-- **C4 counterexample.** With an empty frame collection, `get2dArray`
returns the sentinel table `[[]]`; it does not fail with a NoFrames error. -/
theorem get2dArray_empty_not_noFrames :
    get2dArrayE [7, 7, 7, 7, 7, 7] [] ≠ Except.error FrameErr.noFrames := by
  simp [get2dArrayE]

/-- **C4 (amended).** For every document and key-byte sequence, if the
collection of animation-frame elements is empty, `get2dArray` returns the
sentinel one-empty-row table `[[]]` (it does not fail; the only downstream
failure is `getAnimationKey`'s `Invalid frame data` check on the selected
row). -/
theorem get2dArray_empty_frames (keyBytes : List ℕ) (frames : List FrameElement)
    (h : frames = []) : get2dArrayE keyBytes frames = Except.ok [[]] := by
  subst h
  simp [get2dArrayE]

/-- Witness for `get2dArray_empty_frames` at concrete key bytes. -/
theorem get2dArray_empty_frames_witness :
    ([] : List FrameElement) = [] ∧
      get2dArrayE [7, 7, 7, 7, 7, 7] [] = Except.ok [[]] :=
  ⟨rfl, get2dArray_empty_frames [7, 7, 7, 7, 7, 7] [] rfl⟩

/-- The standard base64 alphabet used by Node's `Buffer` base64 codec, which
`encodeBase64`/`decodeBase64` in `src/transaction.ts` delegate to. -/
def base64Alphabet : List Char :=
  "ABCDEFGHIJKLMNOPQRSTUVWXYZabcdefghijklmnopqrstuvwxyz0123456789+/".toList

/-- The base64 digit for a sixbit value. -/
def sixbitChar (n : ℕ) : Char := base64Alphabet.getD n 'A'

/-- The sixbit value of a base64 digit; `none` for characters outside the
alphabet (Node's decoder skips them, `=` padding included). -/
def sixbitVal (c : Char) : Option ℕ :=
  let i := base64Alphabet.indexOf c
  if i < 64 then some i else none

theorem sixbitVal_sixbitChar : ∀ n, n < 64 → sixbitVal (sixbitChar n) = some n := by decide

/-- `encodeBase64` from `src/transaction.ts` (Node `Buffer.toString('base64')`):
standard RFC 4648 encoding, three bytes to four digits, `=`-padded. -/
def encodeBase64 : List ℕ → List Char
  | [] => []
  | [a] => [sixbitChar (a / 4), sixbitChar (a % 4 * 16), '=', '=']
  | [a, b] => [sixbitChar (a / 4), sixbitChar (a % 4 * 16 + b / 16), sixbitChar (b % 16 * 4), '=']
  | a :: b :: c :: rest =>
    sixbitChar (a / 4) :: sixbitChar (a % 4 * 16 + b / 16) ::
      sixbitChar (b % 16 * 4 + c / 64) :: sixbitChar (c % 64) :: encodeBase64 rest

/-- Reassemble a list of sixbit values into bytes: groups of four digits give
three bytes; a tail of two or three digits (as left by stripped padding)
gives one or two bytes. -/
def decodeSixbits : List ℕ → List ℕ
  | a :: b :: c :: d :: rest =>
    (a * 4 + b / 16) :: (b % 16 * 16 + c / 4) :: (c % 4 * 64 + d) :: decodeSixbits rest
  | [a, b] => [a * 4 + b / 16]
  | [a, b, c] => [a * 4 + b / 16, b % 16 * 16 + c / 4]
  | _ => []

/-- `decodeBase64` from `src/transaction.ts` (Node `Buffer.from(s, 'base64')`):
characters outside the alphabet are ignored, then sixbit groups are
reassembled into bytes. -/
def decodeBase64 (s : String) : List ℕ := decodeSixbits (s.toList.filterMap sixbitVal)

/-- The padding strip `.replace(/=/g, "")` applied by `generateTransactionId`
to the encoded token. -/
def stripEq (l : List Char) : List Char := l.filter (· ≠ '=')

theorem stripEq_filterMap (l : List Char) :
    (stripEq l).filterMap sixbitVal = l.filterMap sixbitVal := by
  induction l with
  | nil => rfl
  | cons c cs ih =>
    by_cases hc : c = '='
    · subst hc
      unfold stripEq at ih ⊢
      rw [List.filter_cons, if_neg (by decide),
        List.filterMap_cons_none (show sixbitVal '=' = none from rfl), ih]
    · unfold stripEq at ih ⊢
      rw [List.filter_cons, if_pos (show decide (c ≠ '=') = true from by simpa using hc),
        List.filterMap_cons, List.filterMap_cons, ih]

/-- Base64 round trip: decoding the (possibly padding-stripped) encoding of a
byte list recovers it. -/
theorem decodeSixbits_encodeBase64 (l : List ℕ) : (∀ b ∈ l, b < 256) →
    decodeSixbits ((encodeBase64 l).filterMap sixbitVal) = l := by
  induction l using encodeBase64.induct with
  | case1 => intro _; rfl
  | case2 a =>
    intro h
    have ha : a < 256 := h a (by simp)
    simp only [encodeBase64, List.filterMap_cons,
      sixbitVal_sixbitChar _ (show a / 4 < 64 by omega),
      sixbitVal_sixbitChar _ (show a % 4 * 16 < 64 by omega),
      show sixbitVal '=' = none from rfl, List.filterMap_nil]
    simp only [decodeSixbits]
    congr 1
    omega
  | case3 a b =>
    intro h
    have ha : a < 256 := h a (by simp)
    have hb : b < 256 := h b (by simp)
    simp only [encodeBase64, List.filterMap_cons,
      sixbitVal_sixbitChar _ (show a / 4 < 64 by omega),
      sixbitVal_sixbitChar _ (show a % 4 * 16 + b / 16 < 64 by omega),
      sixbitVal_sixbitChar _ (show b % 16 * 4 < 64 by omega),
      show sixbitVal '=' = none from rfl, List.filterMap_nil]
    simp only [decodeSixbits]
    congr 1
    · omega
    · congr 1
      omega
  | case4 a b c rest ih =>
    intro h
    have ha : a < 256 := h a (by simp)
    have hb : b < 256 := h b (by simp)
    have hc : c < 256 := h c (by simp)
    simp only [encodeBase64, List.filterMap_cons,
      sixbitVal_sixbitChar _ (show a / 4 < 64 by omega),
      sixbitVal_sixbitChar _ (show a % 4 * 16 + b / 16 < 64 by omega),
      sixbitVal_sixbitChar _ (show b % 16 * 4 + c / 64 < 64 by omega),
      sixbitVal_sixbitChar _ (show c % 64 < 64 by omega)]
    simp only [decodeSixbits, ih (fun x hx => h x (by simp [hx]))]
    congr 1
    · omega
    · congr 1
      · omega
      · congr 1
        omega

theorem sixbitVal_lt {c : Char} {v : ℕ} (h : sixbitVal c = some v) : v < 64 := by
  simp only [sixbitVal] at h
  by_cases hi : base64Alphabet.indexOf c < 64
  · rw [if_pos hi] at h
    injection h with h'
    exact h' ▸ hi
  · rw [if_neg hi] at h
    cases h

theorem decodeSixbits_lt_256 : ∀ l : List ℕ, (∀ v ∈ l, v < 64) →
    ∀ b ∈ decodeSixbits l, b < 256
  | [], _, _, hb => by rw [show decodeSixbits [] = [] from rfl] at hb; cases hb
  | [a], _, _, hb => by rw [show decodeSixbits [a] = [] from rfl] at hb; cases hb
  | [a, b], h, x, hx => by
    have ha : a < 64 := h a (by simp)
    have hb : b < 64 := h b (by simp)
    simp only [decodeSixbits, List.mem_cons, List.not_mem_nil, or_false] at hx
    omega
  | [a, b, c], h, x, hx => by
    have ha : a < 64 := h a (by simp)
    have hb : b < 64 := h b (by simp)
    have hc : c < 64 := h c (by simp)
    simp only [decodeSixbits, List.mem_cons, List.not_mem_nil, or_false] at hx
    rcases hx with rfl | rfl <;> omega
  | a :: b :: c :: d :: rest, h, x, hx => by
    have ha : a < 64 := h a (by simp)
    have hb : b < 64 := h b (by simp)
    have hc : c < 64 := h c (by simp)
    have hd : d < 64 := h d (by simp)
    simp only [decodeSixbits, List.mem_cons] at hx
    rcases hx with rfl | rfl | rfl | hx
    · omega
    · omega
    · omega
    · exact decodeSixbits_lt_256 rest (fun v hv => h v (by simp [hv])) x hx

/-- Every byte produced by `decodeBase64` is an 8-bit value. -/
theorem decodeBase64_lt_256 (s : String) : ∀ b ∈ decodeBase64 s, b < 256 := by
  refine decodeSixbits_lt_256 _ (fun v hv => ?_)
  obtain ⟨c, -, hc⟩ := List.mem_filterMap.mp hv
  exact sixbitVal_lt hc

theorem xor_lt_256 {a b : ℕ} (ha : a < 256) (hb : b < 256) : a ^^^ b < 256 :=
  Nat.xor_lt_two_pow (n := 8) ha hb

/-- The trailing marker byte `ADDITIONAL_RANDOM_NUMBER = 3` of
`src/transaction.ts`. -/
def ADDITIONAL_RANDOM_NUMBER : ℕ := 3

/-- The fixed keyword `DEFAULT_KEYWORD = "obfiowerehiring"` of
`src/transaction.ts`. -/
def DEFAULT_KEYWORD : String := "obfiowerehiring"

/-- JavaScript `ToInt32`, applied by the bitwise operators `&` and `>>`.
`%` on `ℤ` is Euclidean (nonnegative remainder), so this is the usual
wrap into `[-2³¹, 2³¹)`. -/
def toInt32 (n : ℤ) : ℤ := (n + 2 ^ 31) % 2 ^ 32 - 2 ^ 31

/-- The four time bytes of `generateTransactionId`:
`[t & 0xff, (t>>8) & 0xff, (t>>16) & 0xff, (t>>24) & 0xff]`.  JS `>>` is an
arithmetic shift of the 32-bit value, i.e. a flooring division by a power of
two, which for a positive divisor coincides with Euclidean `/` on `ℤ`; the
`& 0xff` masks are the Euclidean remainder mod 256. -/
def timeNowBytes (t : ℤ) : List ℕ :=
  [ (toInt32 t % 256).toNat,
    (toInt32 t / 256 % 256).toNat,
    (toInt32 t / 65536 % 256).toNat,
    (toInt32 t / 16777216 % 256).toNat ]

/-- The wall-clock default timestamp of `generateTransactionId`:
`Math.floor((Date.now() - 1682924400 * 1000) / 1000)`, with `Date.now()`
supplied as the explicit parameter `dateNowMs`. -/
def defaultTimeNow (dateNowMs : ℤ) : ℤ := (dateNowMs - 1682924400 * 1000) / 1000

/-- The defaulting `timeNow = timeNow || Math.floor(...)` at the top of
`generateTransactionId`: JS `||` replaces any falsy left operand — an omitted
argument, but also the number `0` — by the wall-clock default. -/
def resolveTimeNow (timeNowArg : Option ℤ) (dateNowMs : ℤ) : ℤ :=
  match timeNowArg with
  | none => defaultTimeNow dateNowMs
  | some t => if t = 0 then defaultTimeNow dateNowMs else t

/-- The signature string hashed by `generateTransactionId`:
`` `${method}!${path}!${timeNow}${DEFAULT_KEYWORD}${animationKey}` ``. -/
def signatureData (method path : String) (timeNow : ℤ) (animationKey : String) : String :=
  method ++ "!" ++ path ++ "!" ++ toString timeNow ++ DEFAULT_KEYWORD ++ animationKey

/-- The byte sequence that `generateTransactionId` base64-encodes, for an
already-resolved timestamp (lines building `bytesArr` and `out`): the random
mask byte followed by `keyBytes ++ timeNowBytes ++ hashBytes.slice(0,16) ++
[ADDITIONAL_RANDOM_NUMBER]`, each of those bytes XORed with the mask.
`sha256` abstracts the external primitive `crypto.subtle.digest("SHA-256", ·)`
composed with the UTF-8 `TextEncoder`; `randomNum` abstracts the draw
`Math.floor(Math.random() * 256)`. -/
def generateTransactionIdBytes (method path key animationKey : String) (timeNow : ℤ)
    (sha256 : String → List ℕ) (randomNum : ℕ) : List ℕ :=
  let keyBytes := decodeBase64 key
  let hashBytes := sha256 (signatureData method path timeNow animationKey)
  let bytesArr := keyBytes ++ timeNowBytes timeNow ++ hashBytes.take 16
      ++ [ADDITIONAL_RANDOM_NUMBER]
  randomNum :: bytesArr.map (fun item => item ^^^ randomNum)

/-- `generateTransactionId` after timestamp resolution: base64-encode the
masked bytes and strip `=` padding. -/
def generateTransactionIdCore (method path key animationKey : String) (timeNow : ℤ)
    (sha256 : String → List ℕ) (randomNum : ℕ) : String :=
  String.mk (stripEq (encodeBase64
    (generateTransactionIdBytes method path key animationKey timeNow sha256 randomNum)))

/-- `generateTransactionId` from `src/transaction.ts`, with the optional
`timeNow` argument and the ambient inputs (`Date.now()`, SHA-256, the random
draw) made explicit. -/
def generateTransactionId (method path key animationKey : String)
    (timeNowArg : Option ℤ) (dateNowMs : ℤ) (sha256 : String → List ℕ)
    (randomNum : ℕ) : String :=
  generateTransactionIdCore method path key animationKey
    (resolveTimeNow timeNowArg dateNowMs) sha256 randomNum

/-- XOR-unmasking a decoded token with its first byte (the mask byte): the
inverse of the obfuscation step, as described in spec §8. -/
def unmaskToken (bs : List ℕ) : List ℕ := bs.tail.map (fun b => b ^^^ bs.headD 0)

theorem timeNowBytes_lt_256 (t : ℤ) : ∀ b ∈ timeNowBytes t, b < 256 := by
  intro b hb
  simp only [timeNowBytes, List.mem_cons, List.not_mem_nil, or_false] at hb
  rcases hb with rfl | rfl | rfl | rfl <;> omega

theorem generateTransactionIdBytes_lt_256 (method path key animationKey : String)
    (timeNow : ℤ) (sha256 : String → List ℕ) (randomNum : ℕ)
    (hr : randomNum < 256)
    (hsha : ∀ b ∈ sha256 (signatureData method path timeNow animationKey), b < 256) :
    ∀ b ∈ generateTransactionIdBytes method path key animationKey timeNow sha256 randomNum,
      b < 256 := by
  intro b hb
  simp only [generateTransactionIdBytes, List.mem_cons, List.mem_map, List.mem_append,
    List.not_mem_nil, or_false] at hb
  rcases hb with rfl | ⟨item, hitem, rfl⟩
  · exact hr
  · refine xor_lt_256 ?_ hr
    rcases hitem with ((hk | ht) | hh) | rfl
    · exact decodeBase64_lt_256 key item hk
    · exact timeNowBytes_lt_256 timeNow item ht
    · exact hsha item (List.mem_of_mem_take hh)
    · norm_num [ADDITIONAL_RANDOM_NUMBER]

/-- Decoding the emitted token recovers the masked byte sequence (base64
round trip through the padding strip). -/
theorem decodeBase64_generateTransactionIdCore (method path key animationKey : String)
    (timeNow : ℤ) (sha256 : String → List ℕ) (randomNum : ℕ)
    (hr : randomNum < 256)
    (hsha : ∀ b ∈ sha256 (signatureData method path timeNow animationKey), b < 256) :
    decodeBase64 (generateTransactionIdCore method path key animationKey timeNow
        sha256 randomNum)
      = generateTransactionIdBytes method path key animationKey timeNow sha256 randomNum := by
  unfold decodeBase64 generateTransactionIdCore
  rw [show (String.mk (stripEq (encodeBase64 (generateTransactionIdBytes method path key
      animationKey timeNow sha256 randomNum)))).toList
    = stripEq (encodeBase64 (generateTransactionIdBytes method path key animationKey
      timeNow sha256 randomNum)) from rfl]
  rw [stripEq_filterMap]
  exact decodeSixbits_encodeBase64 _
    (generateTransactionIdBytes_lt_256 method path key animationKey timeNow sha256
      randomNum hr hsha)

/-- Unmasking the masked byte sequence with its leading mask byte recovers the
plaintext `keyBytes ++ timeBytes ++ hash16 ++ [3]`, for any mask. -/
theorem unmaskToken_generateTransactionIdBytes (method path key animationKey : String)
    (timeNow : ℤ) (sha256 : String → List ℕ) (randomNum : ℕ) :
    unmaskToken (generateTransactionIdBytes method path key animationKey timeNow
        sha256 randomNum)
      = decodeBase64 key ++ timeNowBytes timeNow
          ++ (sha256 (signatureData method path timeNow animationKey)).take 16
          ++ [ADDITIONAL_RANDOM_NUMBER] := by
  simp only [generateTransactionIdBytes, unmaskToken, List.tail_cons, List.headD_cons,
    List.map_map]
  rw [show ((fun b => b ^^^ randomNum) ∘ fun item => item ^^^ randomNum)
      = fun b => (b ^^^ randomNum) ^^^ randomNum from rfl]
  simp [Nat.xor_cancel_right]

/-- **C1.** For every method, path, verification key, animation key and
(resolved) timestamp, the byte sequence that `generateTransactionId`
base64-encodes is one random mask byte followed by the plaintext
`decode(verificationKey) ++ timeBytes ++ first-16-bytes-of-SHA-256(signature)
++ [3]`, each plaintext byte XORed with the mask byte; consequently
XOR-unmasking the decoded token with its first byte yields that plaintext,
whose length is `len(keyBytes) + 4 + 16 + 1`. -/
theorem transactionIdBytes_layout (method path key animationKey : String) (timeNow : ℤ)
    (sha256 : String → List ℕ) (randomNum : ℕ)
    (hr : randomNum < 256)
    (hlen : 16 ≤ (sha256 (signatureData method path timeNow animationKey)).length)
    (hsha : ∀ b ∈ sha256 (signatureData method path timeNow animationKey), b < 256) :
    generateTransactionIdBytes method path key animationKey timeNow sha256 randomNum
        = randomNum ::
            ((decodeBase64 key ++ timeNowBytes timeNow
              ++ (sha256 (signatureData method path timeNow animationKey)).take 16
              ++ [3]).map fun b => b ^^^ randomNum) ∧
      unmaskToken (decodeBase64 (generateTransactionIdCore method path key animationKey
          timeNow sha256 randomNum))
        = decodeBase64 key ++ timeNowBytes timeNow
            ++ (sha256 (signatureData method path timeNow animationKey)).take 16 ++ [3] ∧
      (unmaskToken (decodeBase64 (generateTransactionIdCore method path key animationKey
          timeNow sha256 randomNum))).length
        = (decodeBase64 key).length + 4 + 16 + 1 := by
  have hdec := decodeBase64_generateTransactionIdCore method path key animationKey timeNow
    sha256 randomNum hr hsha
  have hun := unmaskToken_generateTransactionIdBytes method path key animationKey timeNow
    sha256 randomNum
  refine ⟨rfl, ?_, ?_⟩
  · rw [hdec, hun]
    rfl
  · rw [hdec, hun]
    simp only [List.length_append, List.length_take, List.length_cons, List.length_nil,
      timeNowBytes]
    omega

/-- Witness for `transactionIdBytes_layout` at concrete inputs (empty key, a
constant 32-byte hash, mask byte `0`, timestamp `0`). -/
theorem transactionIdBytes_layout_witness :
    (0 : ℕ) < 256 ∧
      16 ≤ ((fun _ : String => List.replicate 32 0) (signatureData "GET" "/" 0 "")).length ∧
      (∀ b ∈ (fun _ : String => List.replicate 32 0) (signatureData "GET" "/" 0 ""), b < 256) ∧
      (generateTransactionIdBytes "GET" "/" "" "" 0 (fun _ => List.replicate 32 0) 0
          = 0 ::
              ((decodeBase64 "" ++ timeNowBytes 0
                ++ ((fun _ : String => List.replicate 32 0)
                    (signatureData "GET" "/" 0 "")).take 16
                ++ [3]).map fun b => b ^^^ 0) ∧
        unmaskToken (decodeBase64 (generateTransactionIdCore "GET" "/" "" "" 0
            (fun _ => List.replicate 32 0) 0))
          = decodeBase64 "" ++ timeNowBytes 0
              ++ ((fun _ : String => List.replicate 32 0)
                  (signatureData "GET" "/" 0 "")).take 16 ++ [3] ∧
        (unmaskToken (decodeBase64 (generateTransactionIdCore "GET" "/" "" "" 0
            (fun _ => List.replicate 32 0) 0))).length
          = (decodeBase64 "").length + 4 + 16 + 1) :=
  ⟨by norm_num, by simp, by simp,
    transactionIdBytes_layout "GET" "/" "" "" 0 (fun _ => List.replicate 32 0) 0
      (by norm_num) (by simp) (by simp)⟩

/-- **C6.** Token encoding is deterministic in the embedding: with identical
inputs and the same mask byte the token is identical; and two runs differing
only in the mask byte produce tokens whose decoded, XOR-unmasked plaintexts
are equal. -/
theorem token_mask_independence (method path key animationKey : String) (timeNow : ℤ)
    (sha256 : String → List ℕ) (r1 r2 : ℕ)
    (hr1 : r1 < 256) (hr2 : r2 < 256)
    (hsha : ∀ b ∈ sha256 (signatureData method path timeNow animationKey), b < 256) :
    generateTransactionIdCore method path key animationKey timeNow sha256 r1
        = generateTransactionIdCore method path key animationKey timeNow sha256 r1 ∧
      unmaskToken (decodeBase64 (generateTransactionIdCore method path key animationKey
          timeNow sha256 r1))
        = unmaskToken (decodeBase64 (generateTransactionIdCore method path key animationKey
            timeNow sha256 r2)) := by
  refine ⟨rfl, ?_⟩
  rw [decodeBase64_generateTransactionIdCore method path key animationKey timeNow sha256 r1
      hr1 hsha,
    decodeBase64_generateTransactionIdCore method path key animationKey timeNow sha256 r2
      hr2 hsha,
    unmaskToken_generateTransactionIdBytes, unmaskToken_generateTransactionIdBytes]

/-- Witness for `token_mask_independence` with mask bytes `7` and `42`. -/
theorem token_mask_independence_witness :
    (7 : ℕ) < 256 ∧ (42 : ℕ) < 256 ∧
      (∀ b ∈ (fun _ : String => List.replicate 32 0) (signatureData "GET" "/" 0 ""), b < 256) ∧
      (generateTransactionIdCore "GET" "/" "" "" 0 (fun _ => List.replicate 32 0) 7
          = generateTransactionIdCore "GET" "/" "" "" 0 (fun _ => List.replicate 32 0) 7 ∧
        unmaskToken (decodeBase64 (generateTransactionIdCore "GET" "/" "" "" 0
            (fun _ => List.replicate 32 0) 7))
          = unmaskToken (decodeBase64 (generateTransactionIdCore "GET" "/" "" "" 0
              (fun _ => List.replicate 32 0) 42))) :=
  ⟨by norm_num, by norm_num, by simp,
    token_mask_independence "GET" "/" "" "" 0 (fun _ => List.replicate 32 0) 7 42
      (by norm_num) (by norm_num) (by simp)⟩

/-- **C10.** Passing the timestamp value `0` to `generateTransactionId` is
treated exactly like omitting it: JS `||` discards the falsy `0` and uses the
wall-clock default, so the token then depends on `Date.now()` and is not a
deterministic function of the explicit arguments (two wall-clock instants
yield different tokens). -/
theorem timestamp_zero_uses_wall_clock (method path key animationKey : String)
    (dateNowMs : ℤ) (sha256 : String → List ℕ) (randomNum : ℕ)
    (hr : randomNum < 256) (hsha : ∀ s, ∀ b ∈ sha256 s, b < 256) :
    generateTransactionId method path key animationKey (some 0) dateNowMs sha256 randomNum
        = generateTransactionId method path key animationKey none dateNowMs sha256 randomNum ∧
      ∃ n1 n2 : ℤ,
        generateTransactionId method path key animationKey (some 0) n1 sha256 randomNum
          ≠ generateTransactionId method path key animationKey (some 0) n2 sha256 randomNum := by
  constructor
  · rfl
  · refine ⟨1682924401000, 1682924402000, fun heq => ?_⟩
    have h1 : resolveTimeNow (some 0) 1682924401000 = 1 := by decide
    have h2 : resolveTimeNow (some 0) 1682924402000 = 2 := by decide
    rw [generateTransactionId, generateTransactionId, h1, h2] at heq
    have hb := congrArg decodeBase64 heq
    rw [decodeBase64_generateTransactionIdCore method path key animationKey 1 sha256
        randomNum hr (hsha _),
      decodeBase64_generateTransactionIdCore method path key animationKey 2 sha256
        randomNum hr (hsha _)] at hb
    have hu := congrArg unmaskToken hb
    rw [unmaskToken_generateTransactionIdBytes, unmaskToken_generateTransactionIdBytes] at hu
    rw [List.append_assoc, List.append_assoc, List.append_assoc, List.append_assoc] at hu
    have htail := List.append_cancel_left hu
    rw [show timeNowBytes 1 = [1, 0, 0, 0] from by decide,
      show timeNowBytes 2 = [2, 0, 0, 0] from by decide] at htail
    simp at htail

/-- Witness for `timestamp_zero_uses_wall_clock` at concrete inputs. -/
theorem timestamp_zero_uses_wall_clock_witness :
    (0 : ℕ) < 256 ∧ (∀ s : String, ∀ b ∈ List.replicate 32 0, b < 256) ∧
      (generateTransactionId "GET" "/" "" "" (some 0) 0 (fun _ => List.replicate 32 0) 0
          = generateTransactionId "GET" "/" "" "" none 0 (fun _ => List.replicate 32 0) 0 ∧
        ∃ n1 n2 : ℤ,
          generateTransactionId "GET" "/" "" "" (some 0) n1 (fun _ => List.replicate 32 0) 0
            ≠ generateTransactionId "GET" "/" "" "" (some 0) n2
                (fun _ => List.replicate 32 0) 0) :=
  ⟨by norm_num, by simp,
    timestamp_zero_uses_wall_clock "GET" "/" "" "" 0 (fun _ => List.replicate 32 0) 0
      (by norm_num) (by simp)⟩

namespace Cubic

theorem calculate_sub_factor (c0 c2 a b : ℚ) :
    calculate c0 c2 a - calculate c0 c2 b
      = (a - b) * (3 * c0 * (1 - 2 * (a + b) + (a ^ 2 + a * b + b ^ 2))
          + 3 * c2 * ((a + b) - (a ^ 2 + a * b + b ^ 2)) + (a ^ 2 + a * b + b ^ 2)) := by
  simp only [calculate]
  ring

/-- The bezier x-polynomial is Lipschitz on `[0,1]` with the explicit crude
constant `12|c0| + 9|c2| + 3`. -/
theorem calculate_lipschitz (c0 c2 a b : ℚ) (ha0 : 0 ≤ a) (ha1 : a ≤ 1)
    (hb0 : 0 ≤ b) (hb1 : b ≤ 1) :
    |calculate c0 c2 a - calculate c0 c2 b|
      ≤ (12 * |c0| + 9 * |c2| + 3) * |a - b| := by
  have hab : a * b ≤ 1 := by nlinarith
  have ha2 : a ^ 2 ≤ 1 := by nlinarith
  have hb2 : b ^ 2 ≤ 1 := by nlinarith
  have habn : 0 ≤ a * b := mul_nonneg ha0 hb0
  have ha2n : 0 ≤ a ^ 2 := sq_nonneg a
  have hb2n : 0 ≤ b ^ 2 := sq_nonneg b
  have hS : |a ^ 2 + a * b + b ^ 2| ≤ 3 := abs_le.mpr ⟨by linarith, by linarith⟩
  have hX : |1 - 2 * (a + b) + (a ^ 2 + a * b + b ^ 2)| ≤ 4 :=
    abs_le.mpr ⟨by linarith, by linarith⟩
  have hY : |(a + b) - (a ^ 2 + a * b + b ^ 2)| ≤ 3 :=
    abs_le.mpr ⟨by linarith, by linarith⟩
  have hQ : |3 * c0 * (1 - 2 * (a + b) + (a ^ 2 + a * b + b ^ 2))
        + 3 * c2 * ((a + b) - (a ^ 2 + a * b + b ^ 2)) + (a ^ 2 + a * b + b ^ 2)|
      ≤ 12 * |c0| + 9 * |c2| + 3 := by
    have t1 := abs_add
      (3 * c0 * (1 - 2 * (a + b) + (a ^ 2 + a * b + b ^ 2))
        + 3 * c2 * ((a + b) - (a ^ 2 + a * b + b ^ 2)))
      (a ^ 2 + a * b + b ^ 2)
    have t2 := abs_add (3 * c0 * (1 - 2 * (a + b) + (a ^ 2 + a * b + b ^ 2)))
      (3 * c2 * ((a + b) - (a ^ 2 + a * b + b ^ 2)))
    have e1 : |3 * c0 * (1 - 2 * (a + b) + (a ^ 2 + a * b + b ^ 2))|
        = 3 * |c0| * |1 - 2 * (a + b) + (a ^ 2 + a * b + b ^ 2)| := by
      rw [abs_mul, abs_mul, show |(3 : ℚ)| = 3 from by norm_num]
    have e2 : |3 * c2 * ((a + b) - (a ^ 2 + a * b + b ^ 2))|
        = 3 * |c2| * |(a + b) - (a ^ 2 + a * b + b ^ 2)| := by
      rw [abs_mul, abs_mul, show |(3 : ℚ)| = 3 from by norm_num]
    have b1 : 3 * |c0| * |1 - 2 * (a + b) + (a ^ 2 + a * b + b ^ 2)| ≤ 3 * |c0| * 4 :=
      mul_le_mul_of_nonneg_left hX (by positivity)
    have b2 : 3 * |c2| * |(a + b) - (a ^ 2 + a * b + b ^ 2)| ≤ 3 * |c2| * 3 :=
      mul_le_mul_of_nonneg_left hY (by positivity)
    rw [e1, e2] at t2
    linarith
  rw [calculate_sub_factor, abs_mul]
  have key := mul_le_mul_of_nonneg_left hQ (abs_nonneg (a - b))
  linarith [key]

/-- One unfolding of the binary-search loop. -/
theorem bisect_succ (c0 c1 c2 c3 t : ℚ) (n : ℕ) (s e mid : ℚ) :
    bisect c0 c1 c2 c3 t (n + 1) s e mid
      = if s < e then
          (if |t - calculate c0 c2 ((s + e) / 2)| < 1/100000
            then calculate c1 c3 ((s + e) / 2)
            else if calculate c0 c2 ((s + e) / 2) < t
              then bisect c0 c1 c2 c3 t n ((s + e) / 2) e ((s + e) / 2)
              else bisect c0 c1 c2 c3 t n s ((s + e) / 2) ((s + e) / 2))
        else calculate c1 c3 mid := rfl

/-- Once the midpoint is within tolerance, the loop returns its y-value
regardless of remaining fuel. -/
theorem bisect_tol (c0 c1 c2 c3 t s e : ℚ) (hse : s < e)
    (hA : |t - calculate c0 c2 ((s + e) / 2)| < 1/100000) :
    ∀ (n : ℕ) (mid : ℚ),
      bisect c0 c1 c2 c3 t (n + 1) s e mid = calculate c1 c3 ((s + e) / 2) := by
  intro n mid
  rw [bisect_succ, if_pos hse, if_pos hA]

/-- Main convergence argument: from a bracketing interval whose width is small
enough relative to the fuel budget `k`, the loop stabilizes on a midpoint
whose x-estimate is within tolerance of `t`. -/
theorem bisect_run (c0 c1 c2 c3 t : ℚ) :
    ∀ (k : ℕ) (s e : ℚ), 0 ≤ s → e ≤ 1 → s < e →
      calculate c0 c2 s < t → t ≤ calculate c0 c2 e →
      (12 * |c0| + 9 * |c2| + 3) * (e - s) < 1/100000 * 2 ^ k →
      ∃ m, |t - calculate c0 c2 m| < 1/100000 ∧
        ∀ n, k < n → ∀ mid, bisect c0 c1 c2 c3 t n s e mid = calculate c1 c3 m := by
  intro k
  induction k with
  | zero =>
    intro s e hs0 he1 hse hxs hxe hw
    rw [pow_zero, mul_one] at hw
    have hm00 : 0 ≤ (s + e) / 2 := by linarith
    have hm01 : (s + e) / 2 ≤ 1 := by linarith
    have he0 : 0 ≤ e := by linarith
    have hs1 : s ≤ 1 := by linarith
    have lip1 := calculate_lipschitz c0 c2 e ((s + e) / 2) he0 he1 hm00 hm01
    have lip2 := calculate_lipschitz c0 c2 ((s + e) / 2) s hm00 hm01 hs0 hs1
    rw [abs_of_pos (by linarith : (0 : ℚ) < e - (s + e) / 2)] at lip1
    rw [abs_of_pos (by linarith : (0 : ℚ) < (s + e) / 2 - s)] at lip2
    have h1' := le_trans (le_abs_self (calculate c0 c2 e - calculate c0 c2 ((s + e) / 2))) lip1
    have h2' := le_trans (le_abs_self (calculate c0 c2 ((s + e) / 2) - calculate c0 c2 s)) lip2
    have hc0n : (0 : ℚ) ≤ |c0| := abs_nonneg c0
    have hc2n : (0 : ℚ) ≤ |c2| := abs_nonneg c2
    have hA : |t - calculate c0 c2 ((s + e) / 2)| < 1/100000 := by
      rw [abs_lt]
      constructor
      · nlinarith [h2', hxs, hw]
      · nlinarith [h1', hxe, hw]
    refine ⟨(s + e) / 2, hA, fun n hn mid => ?_⟩
    obtain ⟨n', rfl⟩ : ∃ n', n = n' + 1 := ⟨n - 1, by omega⟩
    exact bisect_tol c0 c1 c2 c3 t s e hse hA n' mid
  | succ k ih =>
    intro s e hs0 he1 hse hxs hxe hw
    by_cases hA : |t - calculate c0 c2 ((s + e) / 2)| < 1/100000
    · refine ⟨(s + e) / 2, hA, fun n hn mid => ?_⟩
      obtain ⟨n', rfl⟩ : ∃ n', n = n' + 1 := ⟨n - 1, by omega⟩
      exact bisect_tol c0 c1 c2 c3 t s e hse hA n' mid
    · rw [pow_succ] at hw
      by_cases hlt : calculate c0 c2 ((s + e) / 2) < t
      · obtain ⟨m, hm, hr⟩ := ih ((s + e) / 2) e (by linarith) he1 (by linarith) hlt hxe
          (by nlinarith [hw])
        refine ⟨m, hm, fun n hn mid => ?_⟩
        obtain ⟨n', rfl⟩ : ∃ n', n = n' + 1 := ⟨n - 1, by omega⟩
        rw [bisect_succ, if_pos hse, if_neg hA, if_pos hlt]
        exact hr n' (by omega) _
      · obtain ⟨m, hm, hr⟩ := ih s ((s + e) / 2) hs0 (by linarith) (by linarith) hxs
          (le_of_not_lt hlt) (by nlinarith [hw])
        refine ⟨m, hm, fun n hn mid => ?_⟩
        obtain ⟨n', rfl⟩ : ∃ n', n = n' + 1 := ⟨n - 1, by omega⟩
        rw [bisect_succ, if_pos hse, if_neg hA, if_neg hlt]
        exact hr n' (by omega) _

end Cubic

/-- **C8.** For every control set and every `t` strictly between 0 and 1, the
binary search in `CubicBezierSolver.evaluate` terminates: in exact arithmetic
it finds a parameter `m` whose x-component is within `1e-5` of `t` and
returns the y-component there — for every fuel budget of at least `N` the
loop gives this same answer, so it never fails or runs forever. -/
theorem getValue_binary_search_converges (c0 c1 c2 c3 t : ℚ) (h0 : 0 < t) (h1 : t < 1) :
    ∃ N m, |t - Cubic.calculate c0 c2 m| < 1/100000 ∧
      ∀ n, N ≤ n → Cubic.getValue n [c0, c1, c2, c3] t = Cubic.calculate c1 c3 m := by
  obtain ⟨k, hk⟩ := pow_unbounded_of_one_lt ((12 * |c0| + 9 * |c2| + 3) * 100000)
    (by norm_num : (1 : ℚ) < 2)
  have hstart : Cubic.calculate c0 c2 0 = 0 := by norm_num [Cubic.calculate]
  have hend : Cubic.calculate c0 c2 1 = 1 := by norm_num [Cubic.calculate]
  obtain ⟨m, hm, hrun⟩ := Cubic.bisect_run c0 c1 c2 c3 t k 0 1 le_rfl le_rfl
    (by norm_num) (by rw [hstart]; exact h0) (by rw [hend]; exact le_of_lt h1)
    (by nlinarith [hk])
  refine ⟨k + 1, m, hm, fun n hn => ?_⟩
  rw [Cubic.getValue, if_neg (by linarith), if_neg (by linarith)]
  exact hrun n (by omega) 0

/-- Witness for `getValue_binary_search_converges` on the classic ease curve
`[1/4, 1/10, 1/4, 1]` at `t = 1/2`. -/
theorem getValue_binary_search_converges_witness :
    (0 : ℚ) < 1/2 ∧ (1/2 : ℚ) < 1 ∧
      ∃ N m, |1/2 - Cubic.calculate (1/4) (1/4) m| < 1/100000 ∧
        ∀ n, N ≤ n →
          Cubic.getValue n [1/4, 1/10, 1/4, 1] (1/2) = Cubic.calculate (1/10) 1 m :=
  ⟨by norm_num, by norm_num,
    getValue_binary_search_converges (1/4) (1/10) (1/4) 1 (1/2) (by norm_num) (by norm_num)⟩
